import Mathlib

/-!
Verification of the hangman game core in `hangman_game.py`.

The embedding models the pure masking function `mask_text`, the basic
`Game` state (secret, lives, guessed letters) with its `guess`
classification and derived `won`/`lost` predicates, and the timed
subclass `GameWithTimer` whose `guess` first resolves a pending
timeout against an injected clock.

Modelling conventions:
* Python strings are Lean `String`s; per-character work is done on
  `String.toList`.
* Python's set of single-character guessed strings is a `List Char`
  used as a finite set (only membership matters).
* Python's `str.isalpha` and `str.lower` are modelled over the Basic
  Latin and Latin-1 Supplement blocks, which covers every character
  class the program distinguishes (ASCII letters, digits, punctuation,
  space, and accented Latin letters such as 'é').
* Clock readings are integers: the claims depend only on the ordering
  and addition of timestamps, not on their float representation.
* The injected clock is made explicit: each call of the timed `guess`
  receives the clock's current reading `now` as an argument, and the
  mutated object is returned alongside the outcome string.
-/

namespace Hangman

/-- Python `str.isalpha` on a single character, over the Basic Latin and
Latin-1 Supplement blocks: ASCII letters plus the accented letters
U+00C0 to U+00FF, minus the multiplication and division signs. -/
def pyIsAlpha (c : Char) : Bool :=
  (0x41 ≤ c.toNat && c.toNat ≤ 0x5A) || (0x61 ≤ c.toNat && c.toNat ≤ 0x7A) ||
    (0xC0 ≤ c.toNat && c.toNat ≤ 0xFF && c.toNat != 0xD7 && c.toNat != 0xF7)

/-- The characters that Python `str.lower` maps down by 32: ASCII
uppercase plus the Latin-1 uppercase range minus the multiplication
sign. -/
def pyUpper (c : Char) : Bool :=
  (0x41 ≤ c.toNat && c.toNat ≤ 0x5A) || (0xC0 ≤ c.toNat && c.toNat ≤ 0xDE && c.toNat != 0xD7)

/-- Python `str.lower` on a single character (same blocks as `pyIsAlpha`). -/
def pyLower (c : Char) : Char :=
  if pyUpper c then Char.ofNat (c.toNat + 32) else c

/-- Python `str.isalpha` on a whole string: nonempty and every character
alphabetic. -/
def pyStrIsAlpha (s : String) : Bool :=
  !s.toList.isEmpty && s.toList.all pyIsAlpha

/-- The per-character `token` closure inside `mask_text`: a space becomes
the empty token, a non-alphabetic character is shown unchanged, and an
alphabetic character is shown when its lowercase form is in the
(already lowercased) guessed set, else masked as an underscore. -/
def token (guessed : List Char) (ch : Char) : String :=
  if ch = ' ' then ""
  else if !(pyIsAlpha ch) then String.singleton ch
  else if pyLower ch ∈ guessed then String.singleton ch else "_"

/-- `mask_text` from the source: lowercase the guessed set, then join the
per-character tokens with a single space. -/
def mask_text (secret : String) (guessed : List Char) : String :=
  String.intercalate " " (secret.toList.map (token (List.map pyLower guessed)))

/-- The `Game` dataclass: secret, lives and the guessed-letter set. -/
structure Game where
  secret : String
  lives : Int
  guessed : List Char
deriving DecidableEq

/-- `Game.won`: every lowercased alphabetic character of the secret is in
the lowercased guessed set. -/
def Game.won (g : Game) : Bool :=
  (List.map pyLower (g.secret.toList.filter pyIsAlpha)).all
    (fun c => decide (c ∈ List.map pyLower g.guessed))

/-- `Game.lost`: no lives remain and the game has not been won. -/
def Game.lost (g : Game) : Bool :=
  decide (g.lives ≤ 0) && !g.won

/-- `Game.guess`: classify a raw input as invalid, repeat, hit or miss,
mutating the guessed set on a hit and the lives counter on a miss.
The returned pair is (outcome string, updated game). -/
def Game.guess (g : Game) (raw : String) : String × Game :=
  if raw.toList.isEmpty || raw.toList.length != 1 || !(pyStrIsAlpha raw) then
    ("invalid", g)
  else
    let ch := pyLower raw.toList.headI
    if ch ∈ List.map pyLower g.guessed then ("repeat", g)
    else if ch ∈ List.map pyLower (g.secret.toList.filter pyIsAlpha) then
      ("hit", { g with guessed := g.guessed.insert ch })
    else ("miss", { g with lives := g.lives - 1 })

/-- `GameWithTimer`: the timed subclass adds the per-turn duration and the
absolute deadline of the current turn. -/
structure GameWithTimer extends Game where
  seconds_per_turn : Int
  deadline : Int
deriving DecidableEq

/-- The `GameWithTimer` constructor: empty guessed set and first deadline
at the clock reading plus the turn duration. -/
def GameWithTimer.init (secret : String) (lives : Int) (seconds_per_turn : Int)
    (now : Int) : GameWithTimer :=
  { secret := secret, lives := lives, guessed := [],
    seconds_per_turn := seconds_per_turn, deadline := now + seconds_per_turn }

/-- `GameWithTimer._apply_timeout_if_needed`: when the clock reading is
strictly past the deadline, consume a life, move the deadline to
now plus the turn duration, and report that the timeout fired. -/
def GameWithTimer.applyTimeoutIfNeeded (g : GameWithTimer) (now : Int) :
    Bool × GameWithTimer :=
  if g.deadline < now then
    (true, { g with lives := g.lives - 1, deadline := now + g.seconds_per_turn })
  else (false, g)

/-- `GameWithTimer.guess`: resolve a pending timeout first; otherwise
defer to the base classification. -/
def GameWithTimer.guess (g : GameWithTimer) (now : Int) (raw : String) :
    String × GameWithTimer :=
  let p := g.applyTimeoutIfNeeded now
  if p.1 then ("timeout", p.2)
  else
    let q := Game.guess p.2.toGame raw
    (q.1, { p.2 with toGame := q.2 })

/-- The spec's wording of the masking contract, per character: an
alphabetic character is shown when its case-folded form is in the
case-folded guessed set and masked as an underscore otherwise; a space
contributes an empty token; any other character is shown unchanged. -/
def specMaskToken (guessed : List Char) (ch : Char) : String :=
  if pyIsAlpha ch then
    if pyLower ch ∈ List.map pyLower guessed then String.singleton ch else "_"
  else if ch = ' ' then "" else String.singleton ch

/-- The spec's wording of the whole masking function: per-character
tokens joined with a single space. -/
def mask_text_from_spec (secret : String) (guessed : List Char) : String :=
  String.intercalate " " (secret.toList.map (specMaskToken guessed))

/-- The case-folded alphabetic characters of a string (the letters a
player must guess). -/
def lettersOf (s : String) : List Char :=
  List.map pyLower (s.toList.filter pyIsAlpha)

/-- The input conditions the spec classifies as invalid: empty input,
length other than one, or not alphabetic. -/
def invalidInput (raw : String) : Prop :=
  raw.toList = [] ∨ raw.toList.length ≠ 1 ∨ ¬ (pyStrIsAlpha raw = true)

instance (raw : String) : Decidable (invalidInput raw) := by
  unfold invalidInput; infer_instance

/-! Helper lemmas shared by the claim theorems. -/

lemma char_toNat_ofNat (n : Nat) (h : Nat.isValidChar n) : (Char.ofNat n).toNat = n := by
  simp [Char.ofNat, h, Char.ofNatAux, Char.toNat, UInt32.toNat]

lemma pyLower_idem (c : Char) : pyLower (pyLower c) = pyLower c := by
  unfold pyLower
  by_cases h : pyUpper c = true
  · rw [if_pos h]
    have hn : (Char.ofNat (c.toNat + 32)).toNat = c.toNat + 32 := by
      apply char_toNat_ofNat
      left
      unfold pyUpper at h
      simp only [Bool.or_eq_true, Bool.and_eq_true, decide_eq_true_eq, bne_iff_ne] at h
      omega
    rw [if_neg]
    unfold pyUpper at h ⊢
    simp only [Bool.or_eq_true, Bool.and_eq_true, decide_eq_true_eq, bne_iff_ne] at h ⊢
    rw [hn]
    omega
  · rw [if_neg h, if_neg h]

lemma pyIsAlpha_ne_space (c : Char) (h : pyIsAlpha c = true) : c ≠ ' ' := by
  intro hc
  subst hc
  exact absurd h (by decide)

/-- The timeout does not fire at a reading not past the deadline. -/
lemma applyTimeout_not_fired (g : GameWithTimer) (now : Int) (h : now ≤ g.deadline) :
    g.applyTimeoutIfNeeded now = (false, g) := by
  unfold GameWithTimer.applyTimeoutIfNeeded
  rw [if_neg (not_lt.mpr h)]

/-- With no pending timeout, the timed guess is the base guess lifted to
the timed state. -/
lemma guess_no_timeout (g : GameWithTimer) (now : Int) (raw : String)
    (h : now ≤ g.deadline) :
    g.guess now raw =
      ((Game.guess g.toGame raw).1, { g with toGame := (Game.guess g.toGame raw).2 }) := by
  unfold GameWithTimer.guess
  rw [applyTimeout_not_fired g now h]
  rfl

/-- Past the deadline, the timed guess fires the timeout branch. -/
lemma guess_timeout (g : GameWithTimer) (now : Int) (raw : String)
    (h : g.deadline < now) :
    g.guess now raw =
      ("timeout", { g with lives := g.lives - 1, deadline := now + g.seconds_per_turn }) := by
  unfold GameWithTimer.guess GameWithTimer.applyTimeoutIfNeeded
  rw [if_pos h]
  rfl

/-- Exhaustive case analysis of the base classification. -/
lemma Game.guess_cases (g : Game) (raw : String) :
    ((raw.toList.isEmpty || raw.toList.length != 1 || !(pyStrIsAlpha raw)) = true ∧
      g.guess raw = ("invalid", g)) ∨
    ((raw.toList.isEmpty || raw.toList.length != 1 || !(pyStrIsAlpha raw)) = false ∧
      pyLower raw.toList.headI ∈ List.map pyLower g.guessed ∧
      g.guess raw = ("repeat", g)) ∨
    ((raw.toList.isEmpty || raw.toList.length != 1 || !(pyStrIsAlpha raw)) = false ∧
      pyLower raw.toList.headI ∉ List.map pyLower g.guessed ∧
      pyLower raw.toList.headI ∈ List.map pyLower (g.secret.toList.filter pyIsAlpha) ∧
      g.guess raw = ("hit", { g with guessed := g.guessed.insert (pyLower raw.toList.headI) })) ∨
    ((raw.toList.isEmpty || raw.toList.length != 1 || !(pyStrIsAlpha raw)) = false ∧
      pyLower raw.toList.headI ∉ List.map pyLower g.guessed ∧
      pyLower raw.toList.headI ∉ List.map pyLower (g.secret.toList.filter pyIsAlpha) ∧
      g.guess raw = ("miss", { g with lives := g.lives - 1 })) := by
  unfold Game.guess
  cases hb : (raw.toList.isEmpty || raw.toList.length != 1 || !(pyStrIsAlpha raw)) with
  | true => exact Or.inl ⟨rfl, by rw [if_pos rfl]⟩
  | false =>
    rw [if_neg (by simp)]
    by_cases h1 : pyLower raw.toList.headI ∈ List.map pyLower g.guessed
    · exact Or.inr (Or.inl ⟨rfl, h1, by rw [if_pos h1]⟩)
    · rw [if_neg h1]
      by_cases h2 : pyLower raw.toList.headI ∈ List.map pyLower (g.secret.toList.filter pyIsAlpha)
      · exact Or.inr (Or.inr (Or.inl ⟨rfl, h1, h2, by rw [if_pos h2]⟩))
      · exact Or.inr (Or.inr (Or.inr ⟨rfl, h1, h2, by rw [if_neg h2]⟩))

/-- The base classification never produces the timeout outcome. -/
lemma Game.guess_fst_ne_timeout (g : Game) (raw : String) :
    (g.guess raw).1 ≠ "timeout" := by
  rcases Game.guess_cases g raw with ⟨_, h⟩ | ⟨_, _, h⟩ | ⟨_, _, _, h⟩ | ⟨_, _, _, h⟩ <;> rw [h]
  · exact (by decide : ("invalid" : String) ≠ "timeout")
  · exact (by decide : ("repeat" : String) ≠ "timeout")
  · exact (by decide : ("hit" : String) ≠ "timeout")
  · exact (by decide : ("miss" : String) ≠ "timeout")

/-- The guard of the base classification tests exactly the invalid-input
condition. -/
lemma guard_iff_invalidInput (raw : String) :
    (raw.toList.isEmpty || raw.toList.length != 1 || !(pyStrIsAlpha raw)) = true ↔
      invalidInput raw := by
  unfold invalidInput
  simp [List.isEmpty_iff]
  tauto

/-- The source token function agrees with the spec's per-character
wording. -/
lemma token_eq_specMaskToken (G : List Char) (ch : Char) :
    token (List.map pyLower G) ch = specMaskToken G ch := by
  unfold token specMaskToken
  by_cases hs : ch = ' '
  · subst hs
    have h0 : pyIsAlpha ' ' = false := by decide
    simp [h0]
  · by_cases ha : pyIsAlpha ch = true
    · simp [hs, ha]
    · simp only [Bool.not_eq_true] at ha
      simp [hs, ha]

/-- An invalid input leaves the base game untouched. -/
lemma base_invalid (g : Game) (raw : String) (h : invalidInput raw) :
    g.guess raw = ("invalid", g) := by
  unfold Game.guess
  rw [if_pos ((guard_iff_invalidInput raw).mpr h)]

/-- A valid already-guessed letter is a repeat with no mutation. -/
lemma base_repeat (g : Game) (raw : String) (h : ¬ invalidInput raw)
    (hm : pyLower raw.toList.headI ∈ List.map pyLower g.guessed) :
    g.guess raw = ("repeat", g) := by
  have hg : ¬ ((raw.toList.isEmpty || raw.toList.length != 1 || !(pyStrIsAlpha raw)) = true) :=
    fun hc => h ((guard_iff_invalidInput raw).mp hc)
  unfold Game.guess
  rw [if_neg hg, if_pos hm]

/-- A valid new letter of the secret is a hit that records the letter. -/
lemma base_hit (g : Game) (raw : String) (h : ¬ invalidInput raw)
    (hm : pyLower raw.toList.headI ∉ List.map pyLower g.guessed)
    (hs : pyLower raw.toList.headI ∈ List.map pyLower (g.secret.toList.filter pyIsAlpha)) :
    g.guess raw = ("hit", { g with guessed := g.guessed.insert (pyLower raw.toList.headI) }) := by
  have hg : ¬ ((raw.toList.isEmpty || raw.toList.length != 1 || !(pyStrIsAlpha raw)) = true) :=
    fun hc => h ((guard_iff_invalidInput raw).mp hc)
  unfold Game.guess
  rw [if_neg hg, if_neg hm, if_pos hs]

/-- A valid new letter outside the secret is a miss that costs one life. -/
lemma base_miss (g : Game) (raw : String) (h : ¬ invalidInput raw)
    (hm : pyLower raw.toList.headI ∉ List.map pyLower g.guessed)
    (hs : pyLower raw.toList.headI ∉ List.map pyLower (g.secret.toList.filter pyIsAlpha)) :
    g.guess raw = ("miss", { g with lives := g.lives - 1 }) := by
  have hg : ¬ ((raw.toList.isEmpty || raw.toList.length != 1 || !(pyStrIsAlpha raw)) = true) :=
    fun hc => h ((guard_iff_invalidInput raw).mp hc)
  unfold Game.guess
  rw [if_neg hg, if_neg hm, if_neg hs]

/-! Claim theorems. -/

/-- C1: when the clock reading is strictly past the stored deadline, a
guess returns timeout, decrements lives by exactly one, sets the
deadline to the reading plus the turn duration, and leaves the guessed
set unchanged; a subsequent guess at a time not exceeding the new
deadline is classified by the base rules, never as another timeout. -/
theorem timeout_behavior (g : GameWithTimer) (now : Int) (raw : String)
    (h : g.deadline < now) :
    (g.guess now raw).1 = "timeout" ∧
    (g.guess now raw).2.lives = g.lives - 1 ∧
    (g.guess now raw).2.deadline = now + g.seconds_per_turn ∧
    (g.guess now raw).2.guessed = g.guessed ∧
    ∀ (now2 : Int) (raw2 : String), now2 ≤ (g.guess now raw).2.deadline →
      ((g.guess now raw).2.guess now2 raw2).1 =
        (Game.guess (g.guess now raw).2.toGame raw2).1 ∧
      ((g.guess now raw).2.guess now2 raw2).1 ≠ "timeout" := by
  rw [guess_timeout g now raw h]
  refine ⟨rfl, rfl, rfl, rfl, ?_⟩
  intro now2 raw2 h2
  rw [guess_no_timeout _ now2 raw2 h2]
  exact ⟨rfl, Game.guess_fst_ne_timeout _ _⟩

/-- Witness for C1 at a concrete timed game. -/
theorem timeout_behavior_witness :
    ((GameWithTimer.init "hi" 3 15 0).guess 16 "a").1 = "timeout" ∧
    ((GameWithTimer.init "hi" 3 15 0).guess 16 "a").2.lives =
      (GameWithTimer.init "hi" 3 15 0).lives - 1 ∧
    ((GameWithTimer.init "hi" 3 15 0).guess 16 "a").2.deadline =
      16 + (GameWithTimer.init "hi" 3 15 0).seconds_per_turn ∧
    ((GameWithTimer.init "hi" 3 15 0).guess 16 "a").2.guessed =
      (GameWithTimer.init "hi" 3 15 0).guessed ∧
    (((GameWithTimer.init "hi" 3 15 0).guess 16 "a").2.guess 20 "h").1 =
      (Game.guess ((GameWithTimer.init "hi" 3 15 0).guess 16 "a").2.toGame "h").1 ∧
    (((GameWithTimer.init "hi" 3 15 0).guess 16 "a").2.guess 20 "h").1 ≠ "timeout" := by
  have h := timeout_behavior (GameWithTimer.init "hi" 3 15 0) 16 "a" (by decide)
  have h5 := h.2.2.2.2 20 "h" (by decide)
  exact ⟨h.1, h.2.1, h.2.2.1, h.2.2.2.1, h5.1, h5.2⟩

/-- C2: with no timeout pending, classification follows the spec ladder:
an invalid input is rejected with no mutation; otherwise an
already-guessed letter is a repeat with no mutation; otherwise a letter
occurring in the secret is a hit that adds the lowercased letter to the
guessed set; otherwise a miss that decrements lives by one. -/
theorem guess_classification (g : GameWithTimer) (now : Int) (raw : String)
    (hnt : now ≤ g.deadline) :
    (invalidInput raw → g.guess now raw = ("invalid", g)) ∧
    (¬ invalidInput raw →
      (pyLower raw.toList.headI ∈ List.map pyLower g.guessed →
        g.guess now raw = ("repeat", g)) ∧
      (pyLower raw.toList.headI ∉ List.map pyLower g.guessed →
        (pyLower raw.toList.headI ∈ List.map pyLower (g.secret.toList.filter pyIsAlpha) →
          g.guess now raw =
            ("hit", { g with guessed := g.guessed.insert (pyLower raw.toList.headI) })) ∧
        (pyLower raw.toList.headI ∉ List.map pyLower (g.secret.toList.filter pyIsAlpha) →
          g.guess now raw = ("miss", { g with lives := g.lives - 1 })))) := by
  rw [guess_no_timeout g now raw hnt]
  refine ⟨?_, ?_⟩
  · intro h
    rw [base_invalid g.toGame raw h]
  · intro h
    refine ⟨?_, ?_⟩
    · intro hm
      rw [base_repeat g.toGame raw h hm]
    · intro hm
      refine ⟨?_, ?_⟩
      · intro hs
        rw [base_hit g.toGame raw h hm hs]
      · intro hs
        rw [base_miss g.toGame raw h hm hs]

/-- Witness for C2: a concrete hit. -/
theorem guess_classification_witness :
    (GameWithTimer.init "hi" 3 15 0).guess 1 "h" =
      ("hit", { GameWithTimer.init "hi" 3 15 0 with
                guessed := (GameWithTimer.init "hi" 3 15 0).guessed.insert
                  (pyLower "h".toList.headI) }) :=
  (((guess_classification (GameWithTimer.init "hi" 3 15 0) 1 "h" (by decide)).2
    (by decide)).2 (by decide)).1 (by decide)

/-- C3: mask_text agrees everywhere with the spec's per-character
contract (alphabetic characters revealed exactly when their case-folded
form is guessed, spaces as empty tokens, every other character shown
unchanged, tokens joined by single spaces), and on the spec's concrete
example with the double space at the word boundary. -/
theorem mask_text_matches_spec :
    (∀ (S : String) (G : List Char), mask_text S G = mask_text_from_spec S G) ∧
    mask_text "Hello World!" [] = "_ _ _ _ _  _ _ _ _ _ !" := by
  constructor
  · intro S G
    unfold mask_text mask_text_from_spec
    congr 1
    exact List.map_congr_left (fun c _ => token_eq_specMaskToken G c)
  · decide

/-- C9: a guess whose outcome is hit, miss, repeat or invalid leaves the
stored deadline unchanged; only the timeout branch modifies it. -/
theorem deadline_frame (g : GameWithTimer) (now : Int) (raw : String)
    (h : (g.guess now raw).1 = "hit" ∨ (g.guess now raw).1 = "miss" ∨
      (g.guess now raw).1 = "repeat" ∨ (g.guess now raw).1 = "invalid") :
    (g.guess now raw).2.deadline = g.deadline := by
  by_cases ht : g.deadline < now
  · rw [guess_timeout g now raw ht] at h
    rcases h with h | h | h | h
    · exact absurd (show ("timeout" : String) = "hit" from h) (by decide)
    · exact absurd (show ("timeout" : String) = "miss" from h) (by decide)
    · exact absurd (show ("timeout" : String) = "repeat" from h) (by decide)
    · exact absurd (show ("timeout" : String) = "invalid" from h) (by decide)
  · rw [guess_no_timeout g now raw (not_lt.mp ht)]

/-- Witness for C9 at a concrete hit. -/
theorem deadline_frame_witness :
    ((GameWithTimer.init "hi" 3 15 0).guess 1 "h").2.deadline =
      (GameWithTimer.init "hi" 3 15 0).deadline :=
  deadline_frame (GameWithTimer.init "hi" 3 15 0) 1 "h" (Or.inl (by decide))

/-- Masking a one-character string is the token of that character. -/
lemma mask_single (G : List Char) (c : Char) :
    mask_text (String.singleton c) G = token (List.map pyLower G) c := rfl

/-- C4 counterexample: the input 'é' is alphabetic under Python's
isalpha, so the code classifies it as a miss (costing a life), not as
an invalid input. -/
theorem invalid_inputs_cex :
    ((GameWithTimer.init "hi" 3 15 0).guess 1 "é").1 = "miss" ∧
    ((GameWithTimer.init "hi" 3 15 0).guess 1 "é").2.lives = 2 :=
  ⟨by decide, by decide⟩

/-- C4 amended: with no timeout pending, the empty input, a two-letter
input and a digit each yield invalid and leave the whole state
unchanged. -/
theorem invalid_inputs_amended (g : GameWithTimer) (now : Int) (h : now ≤ g.deadline) :
    g.guess now "" = ("invalid", g) ∧
    g.guess now "ab" = ("invalid", g) ∧
    g.guess now "1" = ("invalid", g) := by
  refine ⟨?_, ?_, ?_⟩
  · rw [guess_no_timeout g now "" h, base_invalid g.toGame "" (by decide)]
  · rw [guess_no_timeout g now "ab" h, base_invalid g.toGame "ab" (by decide)]
  · rw [guess_no_timeout g now "1" h, base_invalid g.toGame "1" (by decide)]

/-- Witness for the amended C4 at a concrete timed game. -/
theorem invalid_inputs_amended_witness :
    (GameWithTimer.init "hi" 3 15 0).guess 1 "" =
      ("invalid", GameWithTimer.init "hi" 3 15 0) ∧
    (GameWithTimer.init "hi" 3 15 0).guess 1 "ab" =
      ("invalid", GameWithTimer.init "hi" 3 15 0) ∧
    (GameWithTimer.init "hi" 3 15 0).guess 1 "1" =
      ("invalid", GameWithTimer.init "hi" 3 15 0) :=
  invalid_inputs_amended (GameWithTimer.init "hi" 3 15 0) 1 (by decide)

/-- C5 counterexample: masking with the full letter set does not return
the secret itself, because the join inserts a space between tokens. -/
theorem mask_reveal_cex : mask_text "hi" (lettersOf "hi") ≠ "hi" := by decide

/-- C5 amended: masking with the full letter set of the secret reveals
every character (letters in their original casing, punctuation
unchanged, spaces as empty tokens), but joined with single spaces
between tokens rather than returning the secret verbatim. -/
theorem mask_reveal_amended (S : String) :
    mask_text S (lettersOf S) =
      String.intercalate " "
        (S.toList.map (fun c => if c = ' ' then "" else String.singleton c)) := by
  unfold mask_text
  congr 1
  apply List.map_congr_left
  intro c hc
  by_cases hs : c = ' '
  · subst hs
    simp [token]
  · by_cases ha : pyIsAlpha c = true
    · have hmem : pyLower c ∈ List.map pyLower (lettersOf S) := by
        have hf : c ∈ S.toList.filter pyIsAlpha := List.mem_filter.mpr ⟨hc, ha⟩
        have h2 : pyLower c ∈ lettersOf S := List.mem_map_of_mem pyLower hf
        have h3 := List.mem_map_of_mem pyLower h2
        rwa [pyLower_idem] at h3
      unfold token
      simp [hs, ha, hmem]
    · simp only [Bool.not_eq_true] at ha
      unfold token
      simp [hs, ha]

/-- C6 counterexample: idempotence fails on the two-letter secret "ab",
where the separator space of the first output is doubled by the second
pass. -/
theorem mask_idempotent_cex :
    mask_text (mask_text "ab" []) [] ≠ mask_text "ab" [] := by decide

/-- C6 amended: re-masking with the same guessed set is not the identity
in general, but it is for every secret of at most one character. -/
theorem mask_idempotent_amended (S : String) (G : List Char)
    (h : S.toList.length ≤ 1) :
    mask_text (mask_text S G) G = mask_text S G := by
  cases hT : S.toList with
  | nil =>
    have e1 : mask_text S G = "" := by unfold mask_text; rw [hT]; rfl
    rw [e1]
    rfl
  | cons c t =>
    have ht : t = [] := by
      rw [hT] at h
      simpa using h
    subst ht
    have e1 : mask_text S G = token (List.map pyLower G) c := by
      unfold mask_text; rw [hT]; rfl
    rw [e1]
    by_cases hs : c = ' '
    · have e2 : token (List.map pyLower G) c = "" := by
        unfold token; rw [if_pos hs]
      rw [e2]
      rfl
    · by_cases ha : pyIsAlpha c = true
      · have hna : ¬ ((!pyIsAlpha c) = true) := by rw [ha]; decide
        by_cases hm : pyLower c ∈ List.map pyLower G
        · have e2 : token (List.map pyLower G) c = String.singleton c := by
            unfold token; rw [if_neg hs, if_neg hna, if_pos hm]
          rw [e2, mask_single]
          exact e2
        · have e2 : token (List.map pyLower G) c = "_" := by
            unfold token; rw [if_neg hs, if_neg hna, if_neg hm]
          rw [e2]
          have e3 : mask_text "_" G = token (List.map pyLower G) '_' := rfl
          rw [e3]
          unfold token
          rw [if_neg (by decide), if_pos (by decide)]
          decide
      · simp only [Bool.not_eq_true] at ha
        have e2 : token (List.map pyLower G) c = String.singleton c := by
          unfold token; rw [if_neg hs, if_pos (by rw [ha]; decide)]
        rw [e2, mask_single]
        exact e2

/-- Witness for the amended C6 at a concrete one-letter secret. -/
theorem mask_idempotent_amended_witness :
    mask_text (mask_text "a" []) [] = mask_text "a" [] :=
  mask_idempotent_amended "a" [] (by decide)

/-- C7 counterexample: a miss at zero lives drives the counter below
zero, so lives are not kept non-negative. -/
theorem lives_nonneg_cex :
    ((GameWithTimer.init "hi" 0 15 0).guess 1 "z").2.lives < 0 := by decide

/-- C7 amended: every guess call either leaves lives unchanged or
decrements it by exactly one; lives are never incremented, but the
counter is not clamped at zero and can go negative. -/
theorem lives_step_amended (g : GameWithTimer) (now : Int) (raw : String) :
    (g.guess now raw).2.lives = g.lives ∨
    (g.guess now raw).2.lives = g.lives - 1 := by
  by_cases ht : g.deadline < now
  · rw [guess_timeout g now raw ht]
    right
    rfl
  · rw [guess_no_timeout g now raw (not_lt.mp ht)]
    rcases Game.guess_cases g.toGame raw with
      ⟨_, h⟩ | ⟨_, _, h⟩ | ⟨_, _, _, h⟩ | ⟨_, _, _, h⟩ <;> rw [h]
    · left; rfl
    · left; rfl
    · left; rfl
    · right; rfl

/-- C8: the derived predicates are mutually exclusive in every state,
and a hit that supplies the final missing letter makes the game won and
not lost regardless of the remaining lives value. -/
theorem won_lost_exclusive :
    (∀ g : Game, ¬ (g.won = true ∧ g.lost = true)) ∧
    (∀ (g : Game) (raw : String),
      (Game.guess g raw).1 = "hit" →
      (∀ c ∈ List.map pyLower (g.secret.toList.filter pyIsAlpha),
        c = pyLower raw.toList.headI ∨ c ∈ List.map pyLower g.guessed) →
      (Game.guess g raw).2.won = true ∧ (Game.guess g raw).2.lost = false) := by
  have excl : ∀ g : Game, g.won = true → g.lost = false := by
    intro g hw
    unfold Game.lost
    rw [hw]
    simp
  constructor
  · rintro g ⟨hw, hl⟩
    rw [excl g hw] at hl
    simp at hl
  · intro g raw hhit hcover
    rcases Game.guess_cases g raw with ⟨_, h⟩ | ⟨_, _, h⟩ | ⟨_, hng, hmem, h⟩ | ⟨_, _, _, h⟩
    · rw [h] at hhit
      exact absurd (show ("invalid" : String) = "hit" from hhit) (by decide)
    · rw [h] at hhit
      exact absurd (show ("repeat" : String) = "hit" from hhit) (by decide)
    · rw [h]
      have hnotmem : pyLower raw.toList.headI ∉ g.guessed := fun hcm =>
        hng (by
          have h2 := List.mem_map_of_mem pyLower hcm
          rwa [pyLower_idem] at h2)
      have hins : g.guessed.insert (pyLower raw.toList.headI) =
          pyLower raw.toList.headI :: g.guessed := List.insert_of_not_mem hnotmem
      have hwon :
          (Game.mk g.secret g.lives
            (g.guessed.insert (pyLower raw.toList.headI))).won = true := by
        unfold Game.won
        simp only [List.all_eq_true, decide_eq_true_eq]
        intro c hc
        rw [hins]
        simp only [List.map_cons, List.mem_cons]
        rcases hcover c hc with h1 | h1
        · exact Or.inl (h1.trans (pyLower_idem _).symm)
        · exact Or.inr h1
      exact ⟨hwon, excl _ hwon⟩
    · rw [h] at hhit
      exact absurd (show ("miss" : String) = "hit" from hhit) (by decide)

/-- Witness for C8: revealing the final letter of a zero-lives game
still wins it. -/
theorem won_lost_exclusive_witness :
    (Game.guess (Game.mk "hi" 0 ['h']) "i").2.won = true ∧
    (Game.guess (Game.mk "hi" 0 ['h']) "i").2.lost = false :=
  won_lost_exclusive.2 (Game.mk "hi" 0 ['h']) "i" (by decide) (by decide)

/-- C10: a guess that missed can be repeated and misses again: the
guessed set records only correct letters, so the same wrong letter is
never classified as a repeat, and each re-guess costs another life. -/
theorem repeated_miss (g : GameWithTimer) (now1 now2 : Int) (raw : String)
    (h1 : now1 ≤ g.deadline)
    (hmiss : (g.guess now1 raw).1 = "miss")
    (h2 : now2 ≤ (g.guess now1 raw).2.deadline) :
    ((g.guess now1 raw).2.guess now2 raw).1 = "miss" ∧
    ((g.guess now1 raw).2.guess now2 raw).2.lives = g.lives - 2 ∧
    ((g.guess now1 raw).2.guess now2 raw).2.guessed = g.guessed := by
  rw [guess_no_timeout g now1 raw h1] at hmiss h2 ⊢
  rcases Game.guess_cases g.toGame raw with
    ⟨_, h⟩ | ⟨_, _, h⟩ | ⟨_, _, _, h⟩ | ⟨hg, hm, hs, h⟩
  · rw [h] at hmiss
    exact absurd (show ("invalid" : String) = "miss" from hmiss) (by decide)
  · rw [h] at hmiss
    exact absurd (show ("repeat" : String) = "miss" from hmiss) (by decide)
  · rw [h] at hmiss
    exact absurd (show ("hit" : String) = "miss" from hmiss) (by decide)
  · rw [h] at h2 ⊢
    dsimp only at h2 ⊢
    rw [guess_no_timeout { g with lives := g.lives - 1 } now2 raw h2]
    dsimp only
    have hni : ¬ invalidInput raw := by
      rw [← guard_iff_invalidInput, hg]
      decide
    have h' : Game.guess { g.toGame with lives := g.toGame.lives - 1 } raw =
        ("miss", { g.toGame with lives := g.toGame.lives - 1 - 1 }) :=
      base_miss { g.toGame with lives := g.toGame.lives - 1 } raw hni hm hs
    rw [h']
    refine ⟨rfl, ?_, rfl⟩
    show g.toGame.lives - 1 - 1 = g.toGame.lives - 2
    omega

/-- Witness for C10: missing with the same wrong letter twice in a row. -/
theorem repeated_miss_witness :
    (((GameWithTimer.init "hi" 3 15 0).guess 1 "z").2.guess 2 "z").1 = "miss" ∧
    (((GameWithTimer.init "hi" 3 15 0).guess 1 "z").2.guess 2 "z").2.lives =
      (GameWithTimer.init "hi" 3 15 0).lives - 2 ∧
    (((GameWithTimer.init "hi" 3 15 0).guess 1 "z").2.guess 2 "z").2.guessed =
      (GameWithTimer.init "hi" 3 15 0).guessed :=
  repeated_miss (GameWithTimer.init "hi" 3 15 0) 1 2 "z" (by decide) (by decide) (by decide)

end Hangman
